import Mathlib

/-!
Shallow embedding of the segment-timing reconciliation layer of the
DubVerse_AI dubbing pipeline (src/dub_video.py, src/modules/transcribe.py,
src/modules/translate.py, src/modules/tts.py), together with theorems
settling the specification's claims about it.

Times are modelled as exact rationals (the source uses Python floats),
audio buffers as lists of rational samples, and the Python/numpy partial
operations (negative slice indices, numpy slice assignment with its
broadcast rule, np.zeros on a negative length) are modelled explicitly so
that the failure behaviour of the source is preserved.
-/

set_option autoImplicit false

namespace DubVerse

attribute [local semireducible] Rat.mul Rat.add Rat.sub Rat.inv

/-- Python `int(x)` on a float/rational: truncation toward zero. -/
def pyInt (q : ℚ) : ℤ := if q < 0 then ⌈q⌉ else ⌊q⌋

/-- Python list/array slice `y[:n]`: for `n ≥ 0` the first `n` elements
(all of `y` when `n ≥ len(y)`); for `n < 0` all but the last `-n`
elements (empty when `-n ≥ len(y)`). -/
def pySliceTo (y : List ℚ) (n : ℤ) : List ℚ :=
  if n < 0 then y.take ((y.length + n).toNat) else y.take n.toNat

/-- Python `str.strip()` character class: ASCII whitespace (the model of
the whitespace stripping the source applies to segment texts). -/
def isPySpace (c : Char) : Bool :=
  c = ' ' ∨ c = '\t' ∨ c = '\n' ∨ c = '\r' ∨ c = '\x0b' ∨ c = '\x0c'

/-- Python `s.strip()`: remove leading and trailing whitespace. -/
def pyStrip (s : String) : String :=
  String.mk (((s.data.dropWhile isPySpace).reverse.dropWhile isPySpace).reverse)

/-- Word-level timestamp entry of a Whisper segment
(src/modules/transcribe.py): a word with absolute start/end seconds. -/
structure Word where
  word  : String
  start : ℚ
  endT  : ℚ
  deriving Repr, DecidableEq

/-- Whisper transcript segment (src/modules/transcribe.py,
src/dub_video.py): absolute start/end seconds, source-language text and
an optional word-level timestamp list (`endT` stands for the source's
`end` key, a reserved word in Lean). -/
structure Seg where
  start : ℚ
  endT  : ℚ
  text  : String
  words : Option (List Word)
  deriving Repr, DecidableEq

/-- Construct a `Seg` without word timestamps. -/
def mkSeg (s e : ℚ) (t : String) : Seg := ⟨s, e, t, none⟩

/-- Loop body of `merge_segments` (src/dub_video.py lines 66-74): fold the
next segment into the accumulator when the silence gap is at most
`max_gap`, otherwise flush the accumulator; the final accumulator is
flushed unconditionally.  The accumulator keeps the first segment's other
fields (the source mutates a shallow dict copy, updating only `text` and
`end`). -/
def mergeLoop (buffer : Seg) (rest : List Seg) (max_gap : ℚ) : List Seg :=
  match rest with
  | [] => [buffer]
  | seg :: rest =>
      if seg.start - buffer.endT ≤ max_gap then
        mergeLoop { buffer with text := buffer.text ++ " " ++ seg.text,
                                endT := seg.endT } rest max_gap
      else
        buffer :: mergeLoop seg rest max_gap

/-- Embedding of `merge_segments` (src/dub_video.py lines 48-75). -/
def merge_segments (segments : List Seg) (max_gap : ℚ) : List Seg :=
  match segments with
  | [] => []
  | s :: rest => mergeLoop s rest max_gap

/-- Word-rebasing step of `get_segments_in_range`
(src/modules/transcribe.py lines 96-106): keep words overlapping the
window and rebase their timestamps. -/
def adjustWords (start_time end_time : ℚ) (ws : List Word) : List Word :=
  ws.filterMap fun w =>
    if w.endT > start_time ∧ w.start < end_time then
      some ⟨w.word, max 0 (w.start - start_time),
            min (end_time - start_time) (w.endT - start_time)⟩
    else none

/-- Rebasing step of `get_segments_in_range` (src/modules/transcribe.py
lines 89-106): clamp the segment to the window, rebase to the window
start, strip the text, and rebase the word list when one is present. -/
def adjustSeg (start_time end_time : ℚ) (seg : Seg) : Seg :=
  { start := max 0 (seg.start - start_time)
    endT  := min (end_time - start_time) (seg.endT - start_time)
    text  := pyStrip seg.text
    words := seg.words.map (adjustWords start_time end_time) }

/-- Embedding of `get_segments_in_range` (src/modules/transcribe.py lines
67-110): keep exactly the segments overlapping the window (the source's
`seg_end > start_time and seg_start < end_time` test) and rebase each. -/
def get_segments_in_range (segments : List Seg) (start_time end_time : ℚ) :
    List Seg :=
  match segments with
  | [] => []
  | seg :: rest =>
      if seg.endT > start_time ∧ seg.start < end_time then
        adjustSeg start_time end_time seg ::
          get_segments_in_range rest start_time end_time
      else
        get_segments_in_range rest start_time end_time

/-- Embedding of `adjust_audio_duration` (src/modules/tts.py lines
105-145).  The clip is the sample list `y` at rate `sr` (the source loads
it from `audio_path`); `stretch` abstracts `librosa.effects.time_stretch`
(an external DSP routine producing a sample list of unconstrained length
from a clip and a rate).  `current_duration` is `len(y)/sr`
(`librosa.get_duration`), `target_samples` is Python's
`int(target_duration * sr)`, and the trim branch is the Python slice
`y_stretched[:target_samples]`. -/
def adjust_audio_duration (stretch : List ℚ → ℚ → List ℚ)
    (y : List ℚ) (sr : ℕ) (target_duration : ℚ) : List ℚ :=
  let current_duration : ℚ := (y.length : ℚ) / (sr : ℚ)
  if current_duration = 0 ∨ target_duration = 0 then y
  else
    let speed_factor := current_duration / target_duration
    let speed_factor := max (1/2) (min 2 speed_factor)
    if |speed_factor - 1| < 1/20 then y
    else
      let y_stretched := stretch y speed_factor
      let target_samples := pyInt (target_duration * (sr : ℚ))
      if (y_stretched.length : ℤ) > target_samples then
        pySliceTo y_stretched target_samples
      else if (y_stretched.length : ℤ) < target_samples then
        y_stretched ++ List.replicate (target_samples - y_stretched.length).toNat 0
      else y_stretched

/-- Numpy 1-D basic slice assignment `buf[start:stop] = y`.  Negative
indices count from the end, indices are clamped to `[0, len(buf)]`, and
the assignment succeeds exactly when `y` matches the slice length or
broadcasts into it (`len(y) = 1`); otherwise numpy raises a broadcast
`ValueError`, modelled as `none`. -/
def npSetSlice (buf : List ℚ) (start stop : ℤ) (y : List ℚ) :
    Option (List ℚ) :=
  let n : ℤ := buf.length
  let s := (if start < 0 then max 0 (n + start) else min start n).toNat
  let e := (if stop < 0 then max 0 (n + stop) else min stop n).toNat
  let e := max s e
  if y.length = e - s then some (buf.take s ++ y ++ buf.drop e)
  else if y.length = 1 then
    some (buf.take s ++ List.replicate (e - s) (y.headD 0) ++ buf.drop e)
  else none

/-- Input record of the Timeline Compositor: the fields of a
`generate_segment_audio` result dict that `stitch_segments_with_timing`
reads — the absolute start time and the samples of the adjusted rendering
(the source loads `seg["adjusted_audio"]` from disk at rate `sr`). -/
structure ClipIn where
  start   : ℚ
  samples : List ℚ
  deriving Repr, DecidableEq

/-- One iteration of the placement loop of `stitch_segments_with_timing`
(src/modules/tts.py lines 165-175): compute the start and end sample of
the clip, truncate its samples and clamp the end when the end sample
exceeds the canvas length, then slice-assign into the canvas. -/
def stitchStep (total_samples sr : ℕ) (buf : List ℚ) (seg : ClipIn) :
    Option (List ℚ) :=
  let y := seg.samples
  let start_sample := pyInt (seg.start * (sr : ℚ))
  let end_sample := start_sample + y.length
  if end_sample > (total_samples : ℤ) then
    npSetSlice buf start_sample (total_samples : ℤ)
      (pySliceTo y ((total_samples : ℤ) - start_sample))
  else
    npSetSlice buf start_sample end_sample y

/-- Embedding of `stitch_segments_with_timing` (src/modules/tts.py lines
148-181).  `np.zeros` on a negative length raises, modelled as `none`;
each clip is then placed by `stitchStep`, the loop body of lines
165-175. -/
def stitch_segments_with_timing (segment_results : List ClipIn)
    (total_duration : ℚ) (sr : ℕ) : Option (List ℚ) :=
  let ts := pyInt (total_duration * (sr : ℚ))
  if ts < 0 then none
  else
    segment_results.foldlM (stitchStep ts.toNat sr)
      (List.replicate ts.toNat 0)

/-- Translated transcript record (src/modules/translate.py lines 156-161):
one entry of the list built by `translate_segments`, holding the merged
segment's timestamps and its source/target-language texts. -/
structure TransSeg where
  start   : ℚ
  endT    : ℚ
  english : String
  hindi   : String
  deriving Repr, DecidableEq

/-- JSON document tree, the value form of the persisted transcript
artifact.  The Python `json` module's text layer (`json.dump` /
`json.load`) is an external collaborator that round-trips such trees
exactly, so persistence is modelled at the tree level. -/
inductive Json where
  | null
  | num (q : ℚ)
  | str (s : String)
  | arr (l : List Json)
  | obj (l : List (String × Json))
  deriving Repr

/-- JSON encoding of one translated record, with the key order of the
dict literal in `translate_segments` (src/modules/translate.py). -/
def transSegToJson (t : TransSeg) : Json :=
  Json.obj [("start", Json.num t.start), ("end", Json.num t.endT),
            ("english", Json.str t.english), ("hindi", Json.str t.hindi)]

/-- Decoding of one translated record from its JSON object form. -/
def transSegOfJson (j : Json) : Option TransSeg :=
  match j with
  | Json.obj [("start", Json.num s), ("end", Json.num e),
              ("english", Json.str en), ("hindi", Json.str hi)] =>
      some ⟨s, e, en, hi⟩
  | _ => none

/-- Embedding of `save_translated_transcript` (src/modules/translate.py
lines 166-171): the document written to disk wraps the segment list in an
object under the single key "segments". -/
def save_translated_transcript (translated_segments : List TransSeg) : Json :=
  Json.obj [("segments", Json.arr (translated_segments.map transSegToJson))]

/-- Decoding of a JSON array of translated records, entry by entry. -/
def decodeSegs (l : List Json) : Option (List TransSeg) :=
  match l with
  | [] => some []
  | j :: rest => do
      let t ← transSegOfJson j
      let ts ← decodeSegs rest
      pure (t :: ts)

/-- Embedding of `load_translated_transcript` (src/modules/translate.py
lines 174-178): read the document back and return `data["segments"]`
decoded to records (`none` models the KeyError/shape failure on a
document that is not of the saved form). -/
def load_translated_transcript (data : Json) : Option (List TransSeg) :=
  match data with
  | Json.obj [("segments", Json.arr l)] => decodeSegs l
  | _ => none

/-- Result record of `generate_segment_audio` (src/modules/tts.py lines
92-100).  The source stores file paths for the raw and adjusted
renderings; the model stores the audio those paths denote. -/
structure SegResult where
  index           : ℕ
  start           : ℚ
  endT            : ℚ
  hindi           : String
  raw_audio       : List ℚ
  adjusted_audio  : List ℚ
  target_duration : ℚ
  deriving Repr, DecidableEq

/-- Loop of `generate_segment_audio` (src/modules/tts.py lines 75-100),
carrying the `enumerate` counter `i`: a segment whose target text strips
to empty is skipped (`continue`); otherwise the text is synthesized
(`synth`, abstracting the external XTTS call, returning samples and their
rate) and fitted to the segment's duration. -/
def genLoop (synth : String → List ℚ × ℕ) (stretch : List ℚ → ℚ → List ℚ)
    (i : ℕ) (segments : List TransSeg) : List SegResult :=
  match segments with
  | [] => []
  | seg :: rest =>
      let hindi_text := pyStrip seg.hindi
      if hindi_text = "" then genLoop synth stretch (i + 1) rest
      else
        let raw := synth hindi_text
        let target_duration := seg.endT - seg.start
        { index := i, start := seg.start, endT := seg.endT,
          hindi := hindi_text, raw_audio := raw.1,
          adjusted_audio :=
            adjust_audio_duration stretch raw.1 raw.2 target_duration,
          target_duration := target_duration } ::
          genLoop synth stretch (i + 1) rest

/-- Embedding of `generate_segment_audio` (src/modules/tts.py lines
59-102). -/
def generate_segment_audio (synth : String → List ℚ × ℕ)
    (stretch : List ℚ → ℚ → List ℚ) (segments : List TransSeg) :
    List SegResult :=
  genLoop synth stretch 0 segments

/-- View of a result record as the compositor input it is consumed as:
`stitch_segments_with_timing` reads exactly `seg["start"]` and the
samples of `seg["adjusted_audio"]`. -/
def SegResult.clip (r : SegResult) : ClipIn := ⟨r.start, r.adjusted_audio⟩

/-- Concatenation of a text list with a single space between consecutive
entries, the reference form in which `merge_segments` preserves the input
texts. -/
def joinTexts (l : List String) : String :=
  match l with
  | [] => ""
  | [t] => t
  | t :: rest => t ++ " " ++ joinTexts rest

/-! Helper lemmas about the Segment Merger. -/

/-- The merge loop always emits at least its accumulator. -/
lemma mergeLoop_ne_nil (buffer : Seg) (rest : List Seg) (max_gap : ℚ) :
    mergeLoop buffer rest max_gap ≠ [] := by
  induction rest generalizing buffer with
  | nil => simp [mergeLoop]
  | cons seg rest ih =>
      unfold mergeLoop
      by_cases h : seg.start - buffer.endT ≤ max_gap
      · simpa [h] using ih _
      · simp [h]

/-- The merge loop emits at most one segment per input segment plus the
accumulator. -/
lemma mergeLoop_length_le (buffer : Seg) (rest : List Seg) (max_gap : ℚ) :
    (mergeLoop buffer rest max_gap).length ≤ rest.length + 1 := by
  induction rest generalizing buffer with
  | nil => simp [mergeLoop]
  | cons seg rest ih =>
      unfold mergeLoop
      by_cases h : seg.start - buffer.endT ≤ max_gap
      · simp only [h, if_true]
        exact le_trans (ih _) (by simp)
      · simp only [h, if_false, List.length_cons]
        exact Nat.succ_le_succ (ih _)

/-- Space-joining over a cons with a non-empty tail unfolds one step. -/
lemma joinTexts_cons_of_ne_nil (a : String) (l : List String) (h : l ≠ []) :
    joinTexts (a :: l) = a ++ " " ++ joinTexts l := by
  cases l with
  | nil => exact absurd rfl h
  | cons b l => rfl

/-- Folding two texts into one with a single space does not change the
space-joined concatenation. -/
lemma joinTexts_fold (a b : String) (l : List String) :
    joinTexts ((a ++ " " ++ b) :: l) = joinTexts (a :: b :: l) := by
  cases l with
  | nil => rfl
  | cons c l =>
      show (a ++ " " ++ b) ++ " " ++ joinTexts (c :: l)
          = a ++ " " ++ (b ++ " " ++ joinTexts (c :: l))
      simp [String.append_assoc]

/-- The merge loop preserves the space-joined concatenation of the
accumulator's and the remaining segments' texts. -/
lemma mergeLoop_joinTexts (buffer : Seg) (rest : List Seg) (max_gap : ℚ) :
    joinTexts ((mergeLoop buffer rest max_gap).map Seg.text)
      = joinTexts (buffer.text :: rest.map Seg.text) := by
  induction rest generalizing buffer with
  | nil => rfl
  | cons seg rest ih =>
      unfold mergeLoop
      by_cases h : seg.start - buffer.endT ≤ max_gap
      · simp only [h, if_true]
        rw [ih]
        exact joinTexts_fold _ _ _
      · simp only [h, if_false, List.map_cons]
        have hne : (mergeLoop seg rest max_gap).map Seg.text ≠ [] := by
          simp [mergeLoop_ne_nil]
        rw [joinTexts_cons_of_ne_nil _ _ hne, ih]
        rfl

/-- Claim C4: for every non-empty segment sequence ordered by `start` and
every `max_gap ≥ 0`, `merge_segments` emits at most as many segments as
it was given, and the space-joined concatenation of the output texts
equals the space-joined concatenation of the input texts (each input text
lands in exactly one output segment, in input order, joined by single
spaces). -/
theorem merge_segments_count_le_and_text_preserved
    (segments : List Seg) (max_gap : ℚ) (hne : segments ≠ [])
    (hord : segments.Pairwise (fun a b => a.start ≤ b.start))
    (_hgap : 0 ≤ max_gap) :
    (merge_segments segments max_gap).length ≤ segments.length ∧
      joinTexts ((merge_segments segments max_gap).map Seg.text)
        = joinTexts (segments.map Seg.text) := by
  cases segments with
  | nil => exact absurd rfl hne
  | cons s rest =>
      refine ⟨?_, ?_⟩
      · simpa [merge_segments] using mergeLoop_length_le s rest max_gap
      · simpa [merge_segments] using mergeLoop_joinTexts s rest max_gap

/-- Witness for C4 on the spec's own merge scenario. -/
theorem merge_segments_count_le_and_text_preserved_witness :
    (merge_segments [mkSeg 0 1 "a", mkSeg (13/10) 2 "b", mkSeg 5 6 "c"] 1).length
        ≤ ([mkSeg 0 1 "a", mkSeg (13/10) 2 "b", mkSeg 5 6 "c"] : List Seg).length ∧
      joinTexts ((merge_segments [mkSeg 0 1 "a", mkSeg (13/10) 2 "b", mkSeg 5 6 "c"] 1).map Seg.text)
        = joinTexts (([mkSeg 0 1 "a", mkSeg (13/10) 2 "b", mkSeg 5 6 "c"] : List Seg).map Seg.text) :=
  merge_segments_count_le_and_text_preserved _ _ (by decide) (by decide) (by decide)

/-! Claims about malformed timing and the Range Projector. -/

/-- Counterexample to claim C3: neither `merge_segments` nor
`get_segments_in_range` excludes a segment with `end ≤ start`.  The
merger keeps the malformed segment `(5, 4, "b")` in its output, and the
projector emits the malformed segment `(5, 3, "b")` (whose projection is
itself, the window being `[0, 10)`). -/
theorem malformed_segment_not_excluded_cex :
    merge_segments [mkSeg 0 1 "a", mkSeg 5 4 "b"] 1
        = [mkSeg 0 1 "a", mkSeg 5 4 "b"] ∧
      (get_segments_in_range [mkSeg 5 3 "b"] 0 10).map
          (fun s => (s.start, s.endT)) = [(5, 3)] := by
  constructor
  · decide
  · have hc : (mkSeg 5 3 "b").endT > 0 ∧ (mkSeg 5 3 "b").start < 10 := by decide
    simp [get_segments_in_range, hc, adjustSeg, mkSeg]
    norm_num [min_def]

/-- Claim C3 as amended: a segment with malformed timing (`end ≤ start`)
is processed like any other rather than excluded — `merge_segments` on a
sequence holding only that segment returns it, and `get_segments_in_range`
emits (a rebased copy of) it whenever its overlap test
`end > window_start ∧ start < window_end` passes; neither aborts. -/
theorem malformed_segment_included
    (s : Seg) (max_gap start_time end_time : ℚ)
    (_hmal : s.endT ≤ s.start)
    (hover : s.endT > start_time ∧ s.start < end_time) :
    merge_segments [s] max_gap = [s] ∧
      get_segments_in_range [s] start_time end_time
        = [adjustSeg start_time end_time s] := by
  refine ⟨rfl, ?_⟩
  simp [get_segments_in_range, hover]

/-- Witness for the amended C3 at a concrete malformed segment. -/
theorem malformed_segment_included_witness :
    merge_segments [mkSeg 5 3 "b"] 1 = [mkSeg 5 3 "b"] ∧
      get_segments_in_range [mkSeg 5 3 "b"] 0 10
        = [adjustSeg 0 10 (mkSeg 5 3 "b")] :=
  malformed_segment_included (mkSeg 5 3 "b") 1 0 10 (by decide)
    ⟨by decide, by decide⟩

/-- The projector is the overlap filter followed by the rebasing map:
its loop keeps input order and rebases exactly the overlapping
segments. -/
lemma get_segments_in_range_eq_filter_map (segments : List Seg)
    (start_time end_time : ℚ) :
    get_segments_in_range segments start_time end_time
      = (segments.filter
            (fun s => s.endT > start_time ∧ s.start < end_time)).map
          (adjustSeg start_time end_time) := by
  induction segments with
  | nil => rfl
  | cons s rest ih =>
      by_cases h : s.endT > start_time ∧ s.start < end_time
      · simp [get_segments_in_range, List.filter_cons, h, ih]
      · simp [get_segments_in_range, List.filter_cons, h, ih]

/-- Claim C6: when every input segment has `start < end` and the window
is non-degenerate, every emitted segment satisfies
`0 ≤ start' < end' ≤ window_end - window_start`, and the output is the
input's overlapping segments rebased in input order. -/
theorem projected_segment_bounds_and_order
    (segments : List Seg) (start_time end_time : ℚ)
    (hdur : ∀ s ∈ segments, s.start < s.endT)
    (hwin : start_time < end_time) :
    (∀ o ∈ get_segments_in_range segments start_time end_time,
        0 ≤ o.start ∧ o.start < o.endT ∧ o.endT ≤ end_time - start_time) ∧
      get_segments_in_range segments start_time end_time
        = (segments.filter
              (fun s => s.endT > start_time ∧ s.start < end_time)).map
            (adjustSeg start_time end_time) := by
  refine ⟨?_, get_segments_in_range_eq_filter_map _ _ _⟩
  intro o ho
  rw [get_segments_in_range_eq_filter_map] at ho
  rcases List.mem_map.mp ho with ⟨s, hs, rfl⟩
  rcases List.mem_filter.mp hs with ⟨hmem, hcond⟩
  rcases of_decide_eq_true hcond with ⟨hse, hsw⟩
  have hd := hdur s hmem
  refine ⟨le_max_left _ _, ?_, min_le_left _ _⟩
  show max 0 (s.start - start_time)
      < min (end_time - start_time) (s.endT - start_time)
  rw [lt_min_iff]
  constructor
  · rw [max_lt_iff]
    exact ⟨sub_pos.mpr hwin, sub_lt_sub_right hsw _⟩
  · rw [max_lt_iff]
    exact ⟨sub_pos.mpr hse, sub_lt_sub_right hd _⟩

/-- Witness for C6 on two well-formed segments and the window `[1, 4)`. -/
theorem projected_segment_bounds_and_order_witness :
    (∀ o ∈ get_segments_in_range [mkSeg 0 2 "a", mkSeg 3 5 "b"] 1 4,
        0 ≤ o.start ∧ o.start < o.endT ∧ o.endT ≤ 4 - 1) ∧
      get_segments_in_range [mkSeg 0 2 "a", mkSeg 3 5 "b"] 1 4
        = (([mkSeg 0 2 "a", mkSeg 3 5 "b"] : List Seg).filter
              (fun s => s.endT > 1 ∧ s.start < 4)).map (adjustSeg 1 4) :=
  projected_segment_bounds_and_order _ 1 4 (by decide) (by decide)

/-- Counterexample to claim C7: the segment `(1, 3, "x")` has
`start < end`, yet projecting it with `window_start = 0` and
`window_end = end - start = 2` does not yield a segment with
`start' = 0`: the segment overlaps that window only on `[1, 2)` and is
emitted with `start' = 1`. -/
theorem project_own_window_cex :
    (get_segments_in_range [mkSeg 1 3 "x"] 0 (3 - 1)).map Seg.start = [1] ∧
      (1 : ℚ) ≠ 0 := by
  constructor
  · have hc : (mkSeg 1 3 "x").endT > 0 ∧ (mkSeg 1 3 "x").start < 3 - 1 := by
      decide
    simp [get_segments_in_range, hc, adjustSeg, mkSeg]
    norm_num
  · decide

/-- Claim C7 as amended: projecting a single segment with
`window_start = start` and `window_end = end` (the window that spans the
segment itself) yields exactly one segment with `start' = 0` and
`end' = end - start`. -/
theorem project_own_window (s : Seg) (h : s.start < s.endT) :
    get_segments_in_range [s] s.start s.endT
      = [{ start := 0, endT := s.endT - s.start, text := pyStrip s.text,
           words := s.words.map (adjustWords s.start s.endT) }] := by
  have hcond : s.endT > s.start ∧ s.start < s.endT := ⟨h, h⟩
  simp only [get_segments_in_range]
  rw [if_pos hcond]
  simp [adjustSeg, sub_self]

/-- Witness for the amended C7 at a concrete segment. -/
theorem project_own_window_witness :
    get_segments_in_range [mkSeg 1 3 "x"] 1 3
      = [{ start := 0, endT := 3 - 1, text := pyStrip "x",
           words := none }] :=
  project_own_window (mkSeg 1 3 "x") (by decide)

/-! Claims about the Duration Fitter. -/

/-- Counterexample to claim C1: the fitter's output sample count is not
`round(target_duration * sample_rate)` for all `target_duration > 0`.
A 100-sample clip at 100 Hz fitted to 1.02 s falls in the ±5% no-stretch
band and keeps its 100 samples, not `round(1.02 * 100) = 102`; and a
10-sample clip at 10 Hz fitted to 0.39 s takes the stretch path and is
trimmed to `int(0.39 * 10) = 3` samples (Python truncation), not
`round(3.9) = 4`. -/
theorem fit_length_round_cex :
    0 < (51/50 : ℚ) ∧
      (adjust_audio_duration (fun l _ => l) (List.replicate 100 1) 100
            (51/50)).length
          ≠ (round ((51/50 : ℚ) * 100)).toNat ∧
      0 < (39/100 : ℚ) ∧
      (adjust_audio_duration (fun l _ => l) (List.replicate 10 1) 10
            (39/100)).length
          ≠ (round ((39/100 : ℚ) * 10)).toNat := by
  refine ⟨by decide, ?_, by decide, ?_⟩
  · decide
  · decide

/-- Claim C1 as amended: for `target_duration > 0` and a clip of nonzero
duration, whenever the clamped speed factor falls outside the ±5%
no-stretch band the output sample count equals
`int(target_duration * sample_rate)` (Python truncation) regardless of
the input duration and of what the stretch routine returns; inside the
band the clip is returned unchanged (counterexample above), so the
length contract holds only on the stretch path and with truncation
rather than rounding. -/
theorem fit_length_contract (stretch : List ℚ → ℚ → List ℚ)
    (y : List ℚ) (sr : ℕ) (target_duration : ℚ)
    (hsr : sr ≠ 0) (hy : y ≠ []) (ht : 0 < target_duration)
    (hband : 1/20 ≤
      |max (1/2) (min 2 (((y.length : ℚ) / (sr : ℚ)) / target_duration)) - 1|) :
    (adjust_audio_duration stretch y sr target_duration).length
      = (⌊target_duration * (sr : ℚ)⌋).toNat := by
  have hlen : (y.length : ℚ) ≠ 0 := by
    exact_mod_cast fun h => hy (List.length_eq_zero.mp (by exact_mod_cast h))
  have hsrq : ((sr : ℚ)) ≠ 0 := by exact_mod_cast hsr
  have hcur : (y.length : ℚ) / (sr : ℚ) ≠ 0 := div_ne_zero hlen hsrq
  have hprod : 0 < target_duration * (sr : ℚ) := by
    have : (0 : ℚ) < (sr : ℚ) := by
      exact_mod_cast Nat.pos_of_ne_zero hsr
    exact mul_pos ht this
  have hts : pyInt (target_duration * (sr : ℚ)) = ⌊target_duration * (sr : ℚ)⌋ := by
    rw [pyInt, if_neg (not_lt.mpr hprod.le)]
  have htsnn : 0 ≤ ⌊target_duration * (sr : ℚ)⌋ := Int.floor_nonneg.mpr hprod.le
  simp only [adjust_audio_duration]
  rw [if_neg (by push_neg; exact ⟨hcur, ht.ne'⟩), if_neg (not_lt.mpr hband)]
  rw [hts]
  set l := stretch y
      (max (1/2) (min 2 (((y.length : ℚ) / (sr : ℚ)) / target_duration)))
  set ts := ⌊target_duration * (sr : ℚ)⌋ with hts'
  split_ifs with h1 h2
  · rw [pySliceTo, if_neg (not_lt.mpr htsnn)]
    rw [List.length_take]
    omega
  · rw [List.length_append, List.length_replicate]
    omega
  · omega

/-- Witness for the amended C1: a 3 s clip fitted to 1 s (clamped speed
factor 2, outside the band) comes out with exactly `int(1 * 10) = 10`
samples. -/
theorem fit_length_contract_witness :
    (adjust_audio_duration (fun l _ => l) (List.replicate 30 1) 10 1).length
      = (⌊(1 : ℚ) * ((10 : ℕ) : ℚ)⌋).toNat :=
  fit_length_contract (fun l _ => l) (List.replicate 30 1) 10 1
    (by decide) (by decide) (by decide) (by decide)

/-- Counterexample to claim C5: for a negative `target_duration` the clip
is not returned unchanged — the pass-through test of the source is
`target_duration == 0`, not `≤ 0`, so a 1 s clip fitted to −1 s goes down
the stretch path (speed factor −1 clamped to 0.5) and is then trimmed by
the negative Python slice `y[:int(-1*10)] = y[:-10]` to nothing. -/
theorem fit_degenerate_cex :
    ((-1 : ℚ) ≤ 0) ∧
      adjust_audio_duration (fun l _ => l) (List.replicate 10 1) 10 (-1)
        ≠ List.replicate 10 1 := by
  refine ⟨by decide, ?_⟩
  decide

/-- Claim C5 as amended: the fitter returns the clip unchanged (and does
not fail) exactly in the degenerate cases the code tests for — measured
duration `len(y)/sr = 0` or `target_duration = 0`; a strictly negative
target instead takes the stretch path. -/
theorem fit_degenerate_passthrough (stretch : List ℚ → ℚ → List ℚ)
    (y : List ℚ) (sr : ℕ) (target_duration : ℚ)
    (h : (y.length : ℚ) / (sr : ℚ) = 0 ∨ target_duration = 0) :
    adjust_audio_duration stretch y sr target_duration = y := by
  simp only [adjust_audio_duration]
  rw [if_pos h]

/-- Witness for the amended C5 at `target_duration = 0`. -/
theorem fit_degenerate_passthrough_witness :
    adjust_audio_duration (fun l _ => l) (List.replicate 10 1) 10 0
      = List.replicate 10 1 :=
  fit_degenerate_passthrough (fun l _ => l) (List.replicate 10 1) 10 0
    (Or.inr rfl)

/-! Helper lemmas about slice assignment and the compositor loop. -/

/-- An in-bounds slice assignment of matching length succeeds and splices
the new samples between the kept prefix and suffix. -/
lemma npSetSlice_eq (buf y : List ℚ) (s e : ℤ)
    (hs : 0 ≤ s) (hse : s ≤ e) (he : e ≤ (buf.length : ℤ))
    (hy : (y.length : ℤ) = e - s) :
    npSetSlice buf s e y
      = some (buf.take s.toNat ++ y ++ buf.drop e.toNat) := by
  have h0e : (0 : ℤ) ≤ e := le_trans hs hse
  simp only [npSetSlice]
  rw [if_neg (not_lt.mpr hs), if_neg (not_lt.mpr h0e)]
  have hsn : (min s (buf.length : ℤ)).toNat = s.toNat := by omega
  have hen : (min e (buf.length : ℤ)).toNat = e.toNat := by omega
  rw [hsn, hen]
  have hmax : max s.toNat e.toNat = e.toNat := by omega
  rw [hmax, if_pos (by omega)]

/-- A successful slice assignment never changes the buffer length (the
canvas is never resized). -/
lemma npSetSlice_length (buf y out : List ℚ) (s e : ℤ)
    (h : npSetSlice buf s e y = some out) : out.length = buf.length := by
  simp only [npSetSlice] at h
  split_ifs at h <;>
    (simp only [Option.some.injEq] at h; subst h;
     simp only [List.length_append, List.length_take, List.length_drop,
       List.length_replicate] at *;
     omega)

/-- Splicing a middle section into a buffer leaves positions outside the
spliced range untouched. -/
lemma getD_splice (buf mid : List ℚ) (a b k : ℕ)
    (hab : a ≤ b) (hb : b ≤ buf.length) (hmid : mid.length = b - a)
    (hk : k < a ∨ b ≤ k) :
    (buf.take a ++ mid ++ buf.drop b).getD k 0 = buf.getD k 0 := by
  have hta : (buf.take a).length = a := by
    rw [List.length_take]; omega
  rcases hk with hk | hk
  · simp only [List.getD_eq_getElem?_getD, List.append_assoc]
    rw [List.getElem?_append_left (by omega : k < (buf.take a).length)]
    rw [List.getElem?_take, if_pos hk]
  · simp only [List.getD_eq_getElem?_getD, List.append_assoc]
    rw [List.getElem?_append_right (by omega : (buf.take a).length ≤ k)]
    rw [hta, List.getElem?_append_right (by omega : mid.length ≤ k - a)]
    rw [List.getElem?_drop]
    have hidx : b + (k - a - mid.length) = k := by omega
    rw [hidx]

/-- Positions outside the assigned slice are unchanged by a successful
nonnegative-index slice assignment. -/
lemma npSetSlice_getD_outside (buf y out : List ℚ) (s e : ℤ) (k : ℕ)
    (hs : 0 ≤ s) (he : 0 ≤ e)
    (h : npSetSlice buf s e y = some out)
    (hk : (k : ℤ) < s ∨ e ≤ (k : ℤ)) :
    out.getD k 0 = buf.getD k 0 := by
  simp only [npSetSlice] at h
  rw [if_neg (not_lt.mpr hs), if_neg (not_lt.mpr he)] at h
  split_ifs at h with h1 h2
  · simp only [Option.some.injEq] at h
    subst h
    exact getD_splice buf y _ _ k (by omega) (by omega) (by omega) (by omega)
  · simp only [Option.some.injEq] at h
    subst h
    exact getD_splice buf _ _ _ k (by omega) (by omega)
      (by rw [List.length_replicate]) (by omega)

/-- A placement step succeeds and preserves the canvas length whenever
the clip's start sample lies inside the canvas, however far its end
sample overruns. -/
lemma stitchStep_some (N sr : ℕ) (buf : List ℚ) (c : ClipIn)
    (hbuf : buf.length = N)
    (h0 : 0 ≤ pyInt (c.start * (sr : ℚ)))
    (hN : pyInt (c.start * (sr : ℚ)) ≤ (N : ℤ)) :
    ∃ out, stitchStep N sr buf c = some out ∧ out.length = N := by
  simp only [stitchStep]
  split_ifs with hov
  · rw [pySliceTo, if_neg (by omega : ¬ (N : ℤ) - pyInt (c.start * (sr : ℚ)) < 0)]
    have hlen : (((c.samples.take
          ((N : ℤ) - pyInt (c.start * (sr : ℚ))).toNat).length : ℤ))
        = (N : ℤ) - pyInt (c.start * (sr : ℚ)) := by
      rw [List.length_take]
      omega
    rw [npSetSlice_eq buf _ _ _ h0 (by omega) (by omega) hlen]
    refine ⟨_, rfl, ?_⟩
    simp only [List.length_append, List.length_take, List.length_drop]
    omega
  · have hlen : ((c.samples.length : ℤ))
        = pyInt (c.start * (sr : ℚ)) + c.samples.length
            - pyInt (c.start * (sr : ℚ)) := by omega
    rw [npSetSlice_eq buf _ _ _ h0 (by omega) (by omega) hlen]
    refine ⟨_, rfl, ?_⟩
    simp only [List.length_append, List.length_take, List.length_drop]
    omega

/-- A position left of a clip's start sample or right of its last sample
is unchanged by that clip's placement step. -/
lemma stitchStep_getD_outside (N sr : ℕ) (buf out : List ℚ) (c : ClipIn)
    (k : ℕ) (h0 : 0 ≤ pyInt (c.start * (sr : ℚ)))
    (h : stitchStep N sr buf c = some out)
    (hk : (k : ℤ) < pyInt (c.start * (sr : ℚ)) ∨
        pyInt (c.start * (sr : ℚ)) + c.samples.length ≤ (k : ℤ)) :
    out.getD k 0 = buf.getD k 0 := by
  simp only [stitchStep] at h
  split_ifs at h with hov
  · exact npSetSlice_getD_outside _ _ _ _ _ k h0 (by omega) h (by omega)
  · exact npSetSlice_getD_outside _ _ _ _ _ k h0 (by omega) h hk

/-- The compositor loop succeeds on every clip list whose start samples
lie inside the canvas, and it returns a canvas of unchanged length. -/
lemma stitch_fold_some (N sr : ℕ) (clips : List ClipIn) (buf : List ℚ)
    (hbuf : buf.length = N)
    (hc : ∀ c ∈ clips, 0 ≤ pyInt (c.start * (sr : ℚ)) ∧
        pyInt (c.start * (sr : ℚ)) ≤ (N : ℤ)) :
    ∃ out, clips.foldlM (stitchStep N sr) buf = some out ∧
      out.length = N := by
  induction clips generalizing buf with
  | nil => exact ⟨buf, by simp, hbuf⟩
  | cons c rest ih =>
      obtain ⟨mid, hmid, hmlen⟩ := stitchStep_some N sr buf c hbuf
        (hc c (List.mem_cons_self c rest)).1 (hc c (List.mem_cons_self c rest)).2
      obtain ⟨out, hout, holen⟩ := ih mid hmlen
        (fun d hd => hc d (List.mem_cons_of_mem c hd))
      refine ⟨out, ?_, holen⟩
      rw [List.foldlM_cons, hmid]
      simpa using hout

/-! Claims about the Timeline Compositor. -/

/-- Counterexample to claim C2: canvas overrun is not always recovered.
A clip of 4 samples placed at 1.2 s on a 1 s canvas at 10 Hz has
`end_sample = 16 > 10`, but its start sample 12 also exceeds the canvas,
so the source's `y[:total_samples - start_sample] = y[:-2]` leaves 2
samples to assign into the empty slice `output[12:10]`, and numpy raises
a broadcast error — modelled as `none`. -/
theorem stitch_overrun_cex :
    stitch_segments_with_timing [⟨6/5, List.replicate 4 1⟩] 1 10 = none ∧
      pyInt ((6/5 : ℚ) * 10) + 4 > pyInt ((1 : ℚ) * 10) := by
  refine ⟨?_, by decide⟩
  decide

/-- Claim C2 as amended: for every clip list in which each clip's start
sample lies within the canvas (`0 ≤ start_sample ≤ canvas length`),
compositing never fails — a clip whose end sample exceeds the canvas is
truncated to fit with its end clamped — and the output canvas has exactly
`int(total_duration * sr)` samples.  Only a clip whose start sample
itself exceeds the canvas length can make the placement raise
(counterexample above). -/
theorem stitch_overrun_recovered (segment_results : List ClipIn)
    (total_duration : ℚ) (sr : ℕ) (htot : 0 ≤ total_duration)
    (hc : ∀ c ∈ segment_results, 0 ≤ pyInt (c.start * (sr : ℚ)) ∧
        pyInt (c.start * (sr : ℚ)) ≤ pyInt (total_duration * (sr : ℚ))) :
    (stitch_segments_with_timing segment_results total_duration sr).map
        List.length
      = some (pyInt (total_duration * (sr : ℚ))).toNat := by
  have hq : 0 ≤ total_duration * (sr : ℚ) :=
    mul_nonneg htot (Nat.cast_nonneg sr)
  have hts0 : 0 ≤ pyInt (total_duration * (sr : ℚ)) := by
    rw [pyInt, if_neg (not_lt.mpr hq)]
    exact Int.floor_nonneg.mpr hq
  simp only [stitch_segments_with_timing]
  rw [if_neg (not_lt.mpr hts0)]
  obtain ⟨out, hout, hlen⟩ :=
    stitch_fold_some (pyInt (total_duration * (sr : ℚ))).toNat sr
      segment_results (List.replicate (pyInt (total_duration * (sr : ℚ))).toNat 0)
      (List.length_replicate _ _)
      (fun c hcm => ⟨(hc c hcm).1, by have := (hc c hcm).2; omega⟩)
  rw [hout]
  simp [hlen]

/-- Witness for the amended C2: a clip starting inside the canvas at
0.5 s whose 8 samples overrun a 10-sample canvas is truncated, not
fatal. -/
theorem stitch_overrun_recovered_witness :
    (stitch_segments_with_timing [⟨1/2, List.replicate 8 1⟩] 1 10).map
        List.length
      = some (pyInt ((1 : ℚ) * ((10 : ℕ) : ℚ))).toNat :=
  stitch_overrun_recovered [⟨1/2, List.replicate 8 1⟩] 1 10 (by decide)
    (by decide)

/-- Counterexample to claim C8: compositing the empty clip list over
0.99 s at 10 Hz yields a buffer of `int(9.9) = 9` samples (Python
truncation), not `round(9.9) = 10` as claimed. -/
theorem stitch_empty_cex :
    (stitch_segments_with_timing [] (99/100) 10).map List.length = some 9 ∧
      (round ((99/100 : ℚ) * 10)).toNat ≠ 9 := by
  refine ⟨?_, by decide⟩
  decide

/-- Claim C8 as amended: for every `total_duration ≥ 0` (np.zeros raises
on a negative sample count) compositing the empty clip sequence yields an
all-silent buffer of length `int(total_duration * sr)` — truncation, not
rounding. -/
theorem stitch_empty_silent (total_duration : ℚ) (sr : ℕ)
    (h : 0 ≤ total_duration) :
    stitch_segments_with_timing [] total_duration sr
      = some (List.replicate (⌊total_duration * (sr : ℚ)⌋).toNat 0) := by
  have hq : 0 ≤ total_duration * (sr : ℚ) :=
    mul_nonneg h (Nat.cast_nonneg sr)
  have hpy : pyInt (total_duration * (sr : ℚ))
      = ⌊total_duration * (sr : ℚ)⌋ := by
    rw [pyInt, if_neg (not_lt.mpr hq)]
  simp only [stitch_segments_with_timing]
  rw [if_neg (by rw [hpy]; exact not_lt.mpr (Int.floor_nonneg.mpr hq))]
  rw [List.foldlM_nil, hpy]
  rfl

/-- Witness for the amended C8 at the fractional canvas length 0.99 s. -/
theorem stitch_empty_silent_witness :
    stitch_segments_with_timing [] (99/100) 10
      = some (List.replicate (⌊(99/100 : ℚ) * ((10 : ℕ) : ℚ)⌋).toNat 0) :=
  stitch_empty_silent (99/100) 10 (by decide)

/-! Claim about transcript persistence. -/

/-- Decoding is a left inverse of encoding on one translated record. -/
lemma transSegOfJson_toJson (t : TransSeg) :
    transSegOfJson (transSegToJson t) = some t := rfl

/-- Claim C9: saving an ordered list of translated-segment records with
`save_translated_transcript` and loading it back with
`load_translated_transcript` returns the same list — the persisted
transcript document round-trips losslessly (the Python `json` text layer
is an external collaborator modelled at the document-tree level). -/
theorem translated_transcript_round_trip (translated_segments : List TransSeg) :
    load_translated_transcript (save_translated_transcript translated_segments)
      = some translated_segments := by
  induction translated_segments with
  | nil => rfl
  | cons t rest ih =>
      simp only [save_translated_transcript, load_translated_transcript,
        List.map_cons] at ih ⊢
      simp [decodeSegs, transSegOfJson_toJson, ih]

/-! Claim about per-segment synthesis and skipping. -/

/-- The generation loop emits one record (with the stripped text and the
running `enumerate` index) per segment whose target text does not strip
to empty, in input order, and no record for the others. -/
lemma genLoop_index_hindi (synth : String → List ℚ × ℕ)
    (stretch : List ℚ → ℚ → List ℚ) (i : ℕ) (segments : List TransSeg) :
    (genLoop synth stretch i segments).map (fun r => (r.index, r.hindi))
      = ((List.enumFrom i segments).filter
            (fun p => pyStrip p.2.hindi ≠ "")).map
          (fun p => (p.1, pyStrip p.2.hindi)) := by
  induction segments generalizing i with
  | nil => rfl
  | cons s rest ih =>
      by_cases h : pyStrip s.hindi = ""
      · simp [genLoop, h, List.enumFrom, List.filter_cons, ih]
      · simp [genLoop, h, List.enumFrom, List.filter_cons, ih]

/-- A canvas position outside every placed clip keeps the value it had
before the compositor loop ran. -/
lemma stitch_fold_getD (N sr k : ℕ) (clips : List ClipIn) :
    ∀ buf out : List ℚ,
      (∀ c ∈ clips, 0 ≤ pyInt (c.start * (sr : ℚ))) →
      (∀ c ∈ clips, (k : ℤ) < pyInt (c.start * (sr : ℚ)) ∨
          pyInt (c.start * (sr : ℚ)) + c.samples.length ≤ (k : ℤ)) →
      clips.foldlM (stitchStep N sr) buf = some out →
      out.getD k 0 = buf.getD k 0 := by
  induction clips with
  | nil =>
      intro buf out _ _ h
      simp only [List.foldlM_nil, Option.pure_def, Option.some.injEq] at h
      rw [h]
  | cons c rest ih =>
      intro buf out hpos hk h
      rw [List.foldlM_cons] at h
      cases hmid : stitchStep N sr buf c with
      | none => rw [hmid] at h; exact Option.noConfusion h
      | some mid =>
          rw [hmid] at h
          simp only [Option.bind_eq_bind, Option.some_bind] at h
          have h1 := stitchStep_getD_outside N sr buf mid c k
            (hpos c (List.mem_cons_self c rest)) hmid
            (hk c (List.mem_cons_self c rest))
          have h2 := ih mid out
            (fun d hd => hpos d (List.mem_cons_of_mem c hd))
            (fun d hd => hk d (List.mem_cons_of_mem c hd)) h
          rw [h2, h1]

/-- Every position of the zero canvas reads as silence. -/
lemma getD_replicate_zero (n k : ℕ) :
    (List.replicate n (0 : ℚ)).getD k 0 = 0 := by
  by_cases h : k < n <;>
    simp [List.getD_eq_getElem?_getD, List.getElem?_replicate, h]

/-- Claim C10: `generate_segment_audio` produces exactly one result
record per segment whose target text is non-empty after stripping, in
input order and carrying the stripped text with the segment's `enumerate`
index, and no record for a segment whose text strips to empty; such a
segment contributes no synthesized clip, so any canvas position `k`
touched by no produced clip — in particular one inside the skipped
segment's interval when no other clip overlaps it — stays silent in the
composited timeline. -/
theorem generate_segment_audio_skips_empty
    (synth : String → List ℚ × ℕ) (stretch : List ℚ → ℚ → List ℚ)
    (segments : List TransSeg) (total_duration : ℚ) (sr : ℕ)
    (out : List ℚ) (k : ℕ)
    (hout : stitch_segments_with_timing
        ((generate_segment_audio synth stretch segments).map SegResult.clip)
        total_duration sr = some out)
    (hpos : ∀ r ∈ generate_segment_audio synth stretch segments,
        0 ≤ pyInt (r.start * (sr : ℚ)))
    (hk : ∀ r ∈ generate_segment_audio synth stretch segments,
        (k : ℤ) < pyInt (r.start * (sr : ℚ)) ∨
          pyInt (r.start * (sr : ℚ)) + r.adjusted_audio.length ≤ (k : ℤ)) :
    (generate_segment_audio synth stretch segments).map
        (fun r => (r.index, r.hindi))
      = ((segments.enum).filter (fun p => pyStrip p.2.hindi ≠ "")).map
          (fun p => (p.1, pyStrip p.2.hindi)) ∧
      out.getD k 0 = 0 := by
  constructor
  · exact genLoop_index_hindi synth stretch 0 segments
  · have hpos' : ∀ c ∈ (generate_segment_audio synth stretch segments).map
        SegResult.clip, 0 ≤ pyInt (c.start * (sr : ℚ)) := by
      intro c hcm
      rcases List.mem_map.mp hcm with ⟨r, hr, rfl⟩
      exact hpos r hr
    have hk' : ∀ c ∈ (generate_segment_audio synth stretch segments).map
        SegResult.clip, (k : ℤ) < pyInt (c.start * (sr : ℚ)) ∨
          pyInt (c.start * (sr : ℚ)) + c.samples.length ≤ (k : ℤ) := by
      intro c hcm
      rcases List.mem_map.mp hcm with ⟨r, hr, rfl⟩
      exact hk r hr
    simp only [stitch_segments_with_timing] at hout
    split_ifs at hout with hneg
    have := stitch_fold_getD (pyInt (total_duration * (sr : ℚ))).toNat sr k
      ((generate_segment_audio synth stretch segments).map SegResult.clip)
      _ out hpos' hk' hout
    rw [this, getD_replicate_zero]

/-- Witness for C10: of two segments, the second's text strips to empty,
so only the first yields a record; position 15 of the composited 2 s
canvas lies in the skipped segment's interval `[1 s, 2 s)` and is
silent. -/
theorem generate_segment_audio_skips_empty_witness :
    (generate_segment_audio (fun _ => (List.replicate 10 1, 10))
          (fun l _ => l) [⟨0, 1, "a", "x"⟩, ⟨1, 2, "b", " "⟩]).map
        (fun r => (r.index, r.hindi))
        = ((([⟨0, 1, "a", "x"⟩, ⟨1, 2, "b", " "⟩] : List TransSeg).enum).filter
              (fun p => pyStrip p.2.hindi ≠ "")).map
            (fun p => (p.1, pyStrip p.2.hindi)) ∧
      (List.replicate 10 (1 : ℚ) ++ List.replicate 10 0).getD 15 0 = 0 :=
  generate_segment_audio_skips_empty (fun _ => (List.replicate 10 1, 10))
    (fun l _ => l) [⟨0, 1, "a", "x"⟩, ⟨1, 2, "b", " "⟩] 2 10
    (List.replicate 10 1 ++ List.replicate 10 0) 15 (by decide) (by decide)
    (by decide)

end DubVerse
